import Mathlib

/-!
Verification development for the company-hiring-analytics orchestration core
(`hiring_analytics_crew.py`).  The Python source is shallowly embedded:

* Python strings are `String` / `List Char`; Python's `in` (substring test)
  is the list-infix relation on the underlying character lists.
* `str.lower` / `str.strip` are modelled character-wise on the ASCII range
  (all constants the code matches against are ASCII).
* The fallible cache backend is a record of state-passing operations that can
  raise (`Except String`), instantiated by an ideal key-value backend (the
  backend contract of the design: `get`/`put`/`get_metadata`/`set_metadata`)
  and by deliberately failing backends.
* `tenacity.retry(stop_after_attempt(3), wait_exponential(multiplier=1, min=4,
  max=10), reraise=True)` is an explicit retry loop; `wait_exponential`
  computes `max(min, min(2^attempt, max))`.
-/

namespace HiringAnalytics

/-- Python `sub in s` on strings: `sub` occurs contiguously in `s`. -/
def pyIn (sub s : String) : Prop := sub.data <:+: s.data

instance (sub s : String) : Decidable (pyIn sub s) := by
  unfold pyIn
  infer_instance

/-- Python `str.lower` modelled character-wise (ASCII case mapping). -/
def pyLower (s : String) : String := String.mk (s.data.map Char.toLower)

/-- Python whitespace recognised by `str.strip` (ASCII part). -/
def pySpace (c : Char) : Bool :=
  c = ' ' || c = '\t' || c = '\n' || c = '\r' || c = '\x0b' || c = '\x0c'

/-- Python `str.strip` on a character list: drop whitespace at both ends. -/
def pyStrip (l : List Char) : List Char :=
  ((l.dropWhile pySpace).reverse.dropWhile pySpace).reverse

/-- Python `text.split('\n')` on a character list. -/
def splitNL : List Char → List (List Char)
  | [] => [[]]
  | c :: t =>
    if c = '\n' then [] :: splitNL t
    else
      match splitNL t with
      | [] => [[c]]
      | h :: r => (c :: h) :: r

/-- Python `'\n'.join` on character lists. -/
def joinNL : List (List Char) → List Char
  | [] => []
  | [l] => l
  | l :: r => l ++ '\n' :: joinNL r

/-- The metadata markers that make `_parse_results` skip a task output
(line 263). -/
def skipWords : List String := ["pydantic", "json_dict", "token_usage"]

/-- The market-bucket markers of `_parse_results` (line 267). -/
def marketTerms : List String := ["Market Position", "Competitors", "Market Share"]

/-- The research-bucket markers of `_parse_results` (line 269). -/
def researchTerms : List String := ["Financial Metrics", "Hiring Metrics", "Growth Indicators"]

/-- Line 263: `not content or any(skip in content.lower() for skip in [...])`. -/
def skipCond (c : String) : Prop :=
  c = "" ∨ ∃ w ∈ skipWords, pyIn w (pyLower c)

instance (c : String) : Decidable (skipCond c) := by
  unfold skipCond
  infer_instance

/-- A market marker occurs in the text (case-sensitive, line 267). -/
def hasMarketTerm (c : String) : Prop := ∃ w ∈ marketTerms, pyIn w c

instance (c : String) : Decidable (hasMarketTerm c) := by
  unfold hasMarketTerm
  infer_instance

/-- A research marker occurs in the text (case-sensitive, line 269). -/
def hasResearchTerm (c : String) : Prop := ∃ w ∈ researchTerms, pyIn w c

instance (c : String) : Decidable (hasResearchTerm c) := by
  unfold hasResearchTerm
  infer_instance

/-- The two output buckets of `_parse_results`. -/
inductive BucketKind
  | market
  | research
deriving DecidableEq

/-- Classification of one extracted task-output text, lines 262-270: skip
metadata/empty first, then market markers, then research markers, else
discard. -/
def classifyOne (c : String) : Option BucketKind :=
  if skipCond c then none
  else if hasMarketTerm c then some BucketKind.market
  else if hasResearchTerm c then some BucketKind.research
  else none

/-- The texts the classification loop appends to `market_data`, in order. -/
def marketData (contents : List String) : List String :=
  contents.filter (fun c => decide (classifyOne c = some BucketKind.market))

/-- The texts the classification loop appends to `research_data`, in order. -/
def researchData (contents : List String) : List String :=
  contents.filter (fun c => decide (classifyOne c = some BucketKind.research))

/-- Line 278: a stripped line is dropped when it starts with `(`, `Task` or
`pydantic`. -/
def noiseLine (l : List Char) : Bool :=
  List.isPrefixOf "(".data l || List.isPrefixOf "Task".data l ||
    List.isPrefixOf "pydantic".data l

/-- A stripped line survives `clean_text` when nonempty and not noise. -/
def keepLine (l : List Char) : Bool := !l.isEmpty && !noiseLine l

/-- The surviving stripped lines of one text, lines 277-278. -/
def cleanLinesOf (t : List Char) : List (List Char) :=
  ((splitNL t).map pyStrip).filter keepLine

/-- `clean_text(text_list)`, lines 273-280: strip and filter each text's
lines, concatenate across texts, join with newlines. -/
def cleanText (texts : List String) : String :=
  String.mk (joinNL (texts.flatMap (fun t => cleanLinesOf t.data)))

/-- The output of `_parse_results`: the dict
`{'tasks_output': [{'task': 'Research', 'raw': research}, {'task': 'Market
Analysis', 'raw': market}]}`, modelled by its two raw text blobs. -/
structure Parsed where
  research : String
  market : String
deriving DecidableEq

/-- `_parse_results` (lines 237-293) on the extracted task-output texts.
The shape-sniffing of lines 243-260 normalises every output to its text,
so the embedding takes the list of extracted texts directly. -/
def parseResults (contents : List String) : Parsed :=
  { research := cleanText (researchData contents)
    market := cleanText (marketData contents) }

/-- The canned research blob of `_get_mock_results` (constant). -/
def mockResearchRaw : String :=
  "Financial Metrics:\n- Revenue: $500M annual (estimated)\n- Profit Margins: 15-20%\n- Cash Position: Strong, with significant reserves\n- Recent Funding: Series C, $100M (2023)\n\nHiring Metrics:\n- Active Openings: 45 positions\n- Key Departments: Engineering, Sales, Operations\n- Growth Areas: Data Science, Cloud Infrastructure\n- Hiring Velocity: Steady increase\n\nGrowth Indicators:\n- Employee Growth: 25% YoY\n- Locations: 5 global offices, expanding\n- Products: 3 new launches in 2023\n- Expansion: APAC market entry planned"

/-- The canned market blob of `_get_mock_results` (embeds the company name
once). -/
def mockMarketRaw (companyName : String) : String :=
  "Market Position:\nCompetitors:\n- " ++ companyName ++
    " (10% market share)\n- Industry Leader Corp (30% market share)\n- Global Solutions Inc (20% market share)\n- Regional Player Ltd (15% market share)\n\nMarket Share:\n- 10% global market share\n- Strong regional presence\n- Growing in emerging markets\n\nIndustry Trends:\n- Digital transformation acceleration\n- AI/ML integration in core operations\n- Sustainability initiatives\n- Remote workforce adoption\n- Supply chain optimization\n\nChallenges:\n- Intense market competition\n- Talent acquisition in key areas\n- Technology adaptation costs\n- Regulatory compliance\n- Market volatility"

/-- `_get_mock_results` (lines 297-350): the fixed canned report. -/
def mockResults (companyName : String) : Parsed :=
  { research := mockResearchRaw
    market := mockMarketRaw companyName }

/-- A task specification as built by `create_tasks`: templated description,
expected-output hint, the 1:1 agent position, and the dependency context
(the `context=` argument; absent means empty). -/
structure TaskSpec where
  description : String
  expectedOutput : String
  agentIdx : Nat
  context : List TaskSpec

/-- The financial task description template (lines 125-129). -/
def descFinancial (n : String) : String :=
  "Research " ++ n ++
    "'s financial metrics:\n            - Revenue\n            - Profit margins\n            - Funding/cash position\n            Format: Financial Metrics: revenue, margins, funding"

/-- The hiring task description template (lines 135-139). -/
def descJobs (n : String) : String :=
  "Analyze " ++ n ++
    "'s hiring:\n            - Current openings\n            - Key departments\n            - Growth areas\n            Format: Hiring Metrics: openings, departments, growth"

/-- The growth task description template (lines 145-149). -/
def descGrowth (n : String) : String :=
  "Check " ++ n ++
    "'s growth:\n            - Employee growth\n            - Locations\n            - New products\n            Format: Growth Indicators: employees, locations, products"

/-- The market task description template (lines 156-167). -/
def descMarket (n : String) : String :=
  "Research and analyze " ++ n ++
    "'s market position:\n            1. Identify and analyze top 3-5 direct competitors\n            2. Estimate market share and relative position\n            3. List key industry trends affecting the company\n            4. Highlight major market challenges and opportunities\n            \n            Format output EXACTLY as follows:\n            Market Position:\n            - Competitors: [List with market share if available]\n            - Market Share: [Company's estimated share]\n            - Industry Trends: [Key trends]\n            - Challenges: [Main challenges]"

/-- `financial_task` (lines 124-132). -/
def financialTask (n : String) : TaskSpec :=
  ⟨descFinancial n, "Financial metrics analysis", 0, []⟩

/-- `jobs_task` (lines 134-142). -/
def jobsTask (n : String) : TaskSpec :=
  ⟨descJobs n, "Hiring patterns analysis", 1, []⟩

/-- `growth_task` (lines 144-152). -/
def growthTask (n : String) : TaskSpec :=
  ⟨descGrowth n, "Growth indicators analysis", 2, []⟩

/-- `market_task` (lines 155-171): declares the three independent tasks as
its dependency context. -/
def marketTask (n : String) : TaskSpec :=
  ⟨descMarket n,
    "Structured market analysis with competitors, share, trends, and challenges", 3,
    [financialTask n, jobsTask n, growthTask n]⟩

/-- `create_tasks` (lines 122-173). -/
def createTasks (n : String) : List TaskSpec :=
  [financialTask n, jobsTask n, growthTask n, marketTask n]

/-! ### The cache fingerprint (`_generate_cache_key`, lines 352-365)

`json.dumps(cache_data, sort_keys=True)` serialises the dict with keys in
sorted order (`company_name`, `config`, `date`, `tasks`, `version`),
separators `", "` and `": "`, and `ensure_ascii=True` string escaping.  The
escaping is embedded character-wise below; MD5 itself is taken as a
parameter, and freedom from collisions of that parameter is the claim's
"barring hash collision" hypothesis. -/

/-- One `%04x` hex rendering (lowercase) of a code below 0x10000. -/
def hex4 (n : Nat) : List Char :=
  [Nat.digitChar (n / 4096 % 16), Nat.digitChar (n / 256 % 16),
    Nat.digitChar (n / 16 % 16), Nat.digitChar (n % 16)]

/-- Python `json` `ensure_ascii` escaping of one character: the short escapes
for quote, backslash and control characters with names, `\uXXXX` for other
characters outside 0x20-0x7e, and a surrogate pair for astral characters. -/
def escChar (c : Char) : List Char :=
  if c = '"' then ['\\', '"']
  else if c = '\\' then ['\\', '\\']
  else if c = '\n' then ['\\', 'n']
  else if c = '\r' then ['\\', 'r']
  else if c = '\t' then ['\\', 't']
  else if c = '\x08' then ['\\', 'b']
  else if c = '\x0c' then ['\\', 'f']
  else if c.toNat < 0x20 then '\\' :: 'u' :: hex4 c.toNat
  else if c.toNat ≤ 0x7e then [c]
  else if c.toNat < 0x10000 then '\\' :: 'u' :: hex4 c.toNat
  else
    ('\\' :: 'u' :: hex4 (0xd800 + (c.toNat - 0x10000) / 1024)) ++
      ('\\' :: 'u' :: hex4 (0xdc00 + (c.toNat - 0x10000) % 1024))

/-- Escaping of a whole string body. -/
def escape : List Char → List Char
  | [] => []
  | c :: t => escChar c ++ escape t

/-- The inverse of the two-character short escapes: which character a
`\k` escape stands for. -/
def shortUnesc (k : Char) : Option Char :=
  if k = '"' then some '"'
  else if k = '\\' then some '\\'
  else if k = 'n' then some '\n'
  else if k = 'r' then some '\r'
  else if k = 't' then some '\t'
  else if k = 'b' then some '\x08'
  else if k = 'f' then some '\x0c'
  else none

/-- Serialisation constant up to the `company_name` value. -/
def serialHead : String := "\x7b\"company_name\": \""

/-- Serialisation constant from the quote closing the `company_name` value
to the opening quote of the `date` value (the whole constant `config`
sub-dict lies inside it). -/
def serialCfgRest : String :=
  ", \"config\": \x7b\"model\": \"claude-3-sonnet-20240229\", \"process\": \"hierarchical\"\x7d, \"date\": \""

/-- Serialisation constant from the quote closing the `date` value to the
first task string's opening quote. -/
def serialTasksRest : String := ", \"tasks\": [\""

/-- Serialisation constant between two task strings. -/
def serialSep : String := "\", \""

/-- Serialisation constant after the last task string. -/
def serialTail : String := "\"], \"version\": \"1.0\"\x7d"

/-- The characters of `json.dumps(cache_data, sort_keys=True)` for
`_generate_cache_key`: lowercased name, the constant config, the date, the
four escaped task descriptions, the version (the quotes closing the
variable-width fields are written explicitly). -/
def serialChars (n d : String) : List Char :=
  serialHead.data ++ escape (pyLower n).data ++
    '"' :: serialCfgRest.data ++ escape d.data ++
    '"' :: serialTasksRest.data ++ escape (descFinancial n).data ++
    serialSep.data ++ escape (descJobs n).data ++
    serialSep.data ++ escape (descGrowth n).data ++
    serialSep.data ++ escape (descMarket n).data ++
    serialTail.data

/-- `cache_string = json.dumps(cache_data, sort_keys=True)` (line 364). -/
def cacheString (n d : String) : String := String.mk (serialChars n d)

/-- `_generate_cache_key` (line 365): prefix plus the hex digest of the MD5
of the serialisation; the digest function is a parameter `md5hex`. -/
def generateCacheKey (md5hex : String → String) (n d : String) : String :=
  "company_analysis_" ++ md5hex (cacheString n d)

/-! ### Cache metadata and the fallible backend -/

/-- The extracted task texts of one crew result (the shapes of lines 243-260
normalised to their text content). -/
def Payload : Type := List String

instance : DecidableEq Payload := by
  unfold Payload
  infer_instance

/-- A cache metadata dict, by its possible fields (`company`, `timestamp`,
`ttl`, `hits`); an absent field is `none`, the empty dict is all-`none`. -/
structure MetaDict where
  company : Option String
  timestamp : Option String
  ttl : Option Nat
  hits : Option Nat
deriving DecidableEq

/-- The empty metadata dict. -/
def emptyMetaDict : MetaDict := ⟨none, none, none, none⟩

/-- The dict `_get_cache_metadata` builds on success (lines 370-375): exactly
the keys `timestamp`, `ttl`, `hits`, with defaults. -/
def projMeta (m : MetaDict) : MetaDict :=
  ⟨none, some (m.timestamp.getD "unknown"), some (m.ttl.getD 0), some (m.hits.getD 0)⟩

/-- Line 195: `{**metadata, 'hits': metadata.get('hits', 0) + 1}`. -/
def hitUpd (m : MetaDict) : MetaDict :=
  { m with hits := some (m.hits.getD 0 + 1) }

/-- Lines 217-221: the metadata written after a live run. -/
def creationMeta (companyName nowIso : String) : MetaDict :=
  ⟨some companyName, some nowIso, none, some 1⟩

/-- A cache backend: state-passing `get`/`set`/`get_metadata`/`set_metadata`,
each able to raise an exception carried as its message string. -/
structure CacheOps (σ : Type) where
  get : String → σ → Except String (Option Payload) × σ
  set : String → Payload → σ → Except String Unit × σ
  getMeta : String → σ → Except String (Option MetaDict) × σ
  setMeta : String → MetaDict → σ → Except String Unit × σ

/-- `_get_cache_metadata` (lines 367-377): projected metadata on success,
the empty dict when the backend raises; `or {}` turns an absent entry into
the empty dict before projection. -/
def getCacheMetadata {σ : Type} (ops : CacheOps σ) (key : String) (s : σ) :
    MetaDict × σ :=
  match ops.getMeta key s with
  | (Except.error _, s') => (emptyMetaDict, s')
  | (Except.ok mo, s') => (projMeta (mo.getD emptyMetaDict), s')

/-- Observable side effects of one `analyze_company` body run: `time.sleep`
durations in order, crew kickoffs, and cache-backend calls (reads:
`get`/`get_metadata`; writes: `set`/`set_metadata`). -/
structure BodyLog where
  sleeps : List Nat
  kickoffs : Nat
  cacheGets : Nat
  cacheSets : Nat
deriving DecidableEq

/-- The empty effect log. -/
def emptyLog : BodyLog := ⟨[], 0, 0, 0⟩

/-- Concatenation of effect logs of consecutive runs. -/
def logApp (a b : BodyLog) : BodyLog :=
  ⟨a.sleeps ++ b.sleeps, a.kickoffs + b.kickoffs, a.cacheGets + b.cacheGets,
    a.cacheSets + b.cacheSets⟩

/-- The module never imports `streamlit`, so every `st.warning(...)` in
`analyze_company` (lines 199 and 223) raises `NameError` with this message
instead of warning. -/
def stNameErrorMsg : String := "name 'st' is not defined"

/-- Line 230: the reclassified billing-exhaustion message. -/
def creditFatalMsg : String :=
  "API credits depleted. Please check your Anthropic API account."

/-- The outer `except` handler of `analyze_company` (lines 227-235) applied
to the message of the caught exception: returns the re-raised message and
the extra sleeps it performs. -/
def outerHandler (m : String) : Except String Parsed × List Nat :=
  if pyIn "credit balance is too low" m then (Except.error creditFatalMsg, [])
  else if pyIn "rate limit" (pyLower m) then (Except.error m, [5])
  else (Except.error ("Error analyzing company: " ++ m), [])

/-- One undecorated run of `analyze_company` (lines 180-235): test-mode
short-circuit; cache read (a raising backend makes the handler itself raise
`NameError` because `st` is undefined, which the outer handler wraps); on a
hit, metadata update and parse of the cached payload; on a miss, sleep,
kickoff, cache write (write errors again end in the `NameError` path), parse.
Returns the result, the final backend state and the effect log. -/
def analyzeBody {σ : Type} (ops : CacheOps σ) (md5hex : String → String)
    (crew : Except String Payload) (testMode : Bool)
    (companyName date nowIso : String) (s : σ) :
    Except String Parsed × σ × BodyLog :=
  if testMode then (Except.ok (mockResults companyName), s, emptyLog)
  else
    let key := generateCacheKey md5hex companyName date
    match ops.get key s with
    | (Except.error _, s1) =>
      let (r, sl) := outerHandler stNameErrorMsg
      (r, s1, ⟨sl, 0, 1, 0⟩)
    | (Except.ok (some payload), s1) =>
      let (md, s2) := getCacheMetadata ops key s1
      match ops.setMeta key (hitUpd md) s2 with
      | (Except.error _, s3) =>
        let (r, sl) := outerHandler stNameErrorMsg
        (r, s3, ⟨sl, 0, 2, 1⟩)
      | (Except.ok _, s3) => (Except.ok (parseResults payload), s3, ⟨[], 0, 2, 1⟩)
    | (Except.ok none, s1) =>
      match crew with
      | Except.error e =>
        let (r, sl) := outerHandler e
        (r, s1, ⟨2 :: sl, 1, 1, 0⟩)
      | Except.ok result =>
        match ops.set key result s1 with
        | (Except.error _, s2) =>
          let (r, sl) := outerHandler stNameErrorMsg
          (r, s2, ⟨2 :: sl, 1, 1, 1⟩)
        | (Except.ok _, s2) =>
          match ops.setMeta key (creationMeta companyName nowIso) s2 with
          | (Except.error _, s3) =>
            let (r, sl) := outerHandler stNameErrorMsg
            (r, s3, ⟨2 :: sl, 1, 1, 2⟩)
          | (Except.ok _, s3) =>
            (Except.ok (parseResults result), s3, ⟨[2], 1, 1, 2⟩)

/-- `tenacity.wait_exponential(multiplier=1, min=4, max=10)` after the given
completed attempt number: `max(min, min(2^attempt, max))`. -/
def waitExp (attempt : Nat) : Nat := max 4 (min (2 ^ attempt) 10)

/-- The outcome of the decorated `analyze_company`: result, final backend
state, accumulated body effects, and the decorator's waits between attempts. -/
structure RunOut (σ : Type) where
  result : Except String Parsed
  state : σ
  log : BodyLog
  waits : List Nat

/-- The retry loop of `tenacity.retry(stop=stop_after_attempt(3), ...,
reraise=True)` from attempt `i` with the given remaining attempts: re-run
the body on any raised exception, waiting `waitExp` in between, and re-raise
the last exception when attempts run out. -/
def retryGo {σ : Type} (ops : CacheOps σ) (md5hex : String → String)
    (crews : Nat → Except String Payload) (testMode : Bool)
    (companyName date : String) (nows : Nat → String) :
    Nat → Nat → σ → BodyLog → List Nat → RunOut σ
  | _, 0, s, lg, ws => ⟨Except.error "no attempts configured", s, lg, ws⟩
  | i, rem + 1, s, lg, ws =>
    match analyzeBody ops md5hex (crews i) testMode companyName date (nows i) s with
    | (Except.ok v, s', lg') => ⟨Except.ok v, s', logApp lg lg', ws⟩
    | (Except.error e, s', lg') =>
      match rem with
      | 0 => ⟨Except.error e, s', logApp lg lg', ws⟩
      | _ + 1 =>
        retryGo ops md5hex crews testMode companyName date nows (i + 1) rem s'
          (logApp lg lg') (ws ++ [waitExp i])

/-- The decorated `analyze_company`: up to 3 attempts in total.  The
`crews` and `nows` oracles give attempt `i`'s kickoff outcome and
`datetime.now()` reading. -/
def analyzeCompany {σ : Type} (ops : CacheOps σ) (md5hex : String → String)
    (crews : Nat → Except String Payload) (testMode : Bool)
    (companyName date : String) (nows : Nat → String) (s : σ) : RunOut σ :=
  retryGo ops md5hex crews testMode companyName date nows 1 3 s emptyLog []

/-- State of the ideal key-value backend: the stored payloads and the
stored metadata dicts. -/
def IdealState : Type := (String → Option Payload) × (String → Option MetaDict)

/-- Modelled from the spec: the cache backend behind `Cache.get`/`Cache.set`/
`Cache.get_metadata`/`Cache.set_metadata` is the external `crewai.cache`
store (not part of this repository; the in-file fallback only stubs the
metadata calls), specified as a key-value store whose reads return exactly
what was last written.  No operation raises. -/
def idealOps : CacheOps IdealState where
  get := fun k s => (Except.ok (s.1 k), s)
  set := fun k v s => (Except.ok (), (fun x => if x = k then some v else s.1 x, s.2))
  getMeta := fun k s => (Except.ok (s.2 k), s)
  setMeta := fun k m s => (Except.ok (), (s.1, fun x => if x = k then some m else s.2 x))

/-- The empty ideal backend state. -/
def emptyIdealState : IdealState := (fun _ => none, fun _ => none)

/-- A backend whose `get` always raises (backend unavailable). -/
def failingGetOps : CacheOps Unit where
  get := fun _ s => (Except.error "Cache backend unavailable", s)
  set := fun _ _ s => (Except.ok (), s)
  getMeta := fun _ s => (Except.ok none, s)
  setMeta := fun _ _ s => (Except.ok (), s)

/-- A backend whose `set` always raises (write failure after a live run). -/
def failingSetOps : CacheOps Unit where
  get := fun _ s => (Except.ok none, s)
  set := fun _ _ s => (Except.error "Cache write failed", s)
  getMeta := fun _ s => (Except.ok none, s)
  setMeta := fun _ _ s => (Except.ok (), s)

/-- One caller-level run whose live crew outcome is the fixed payload `p`:
`analyze_company` with a working crew. -/
def liveCall (md5hex : String → String) (companyName date nowIso : String)
    (p : Payload) (s : IdealState) : RunOut IdealState :=
  analyzeCompany idealOps md5hex (fun _ => Except.ok p) false companyName date
    (fun _ => nowIso) s

/-- One caller-level run whose crew would fail if invoked: any successful
result must come from the cache. -/
def hitCall (md5hex : String → String) (companyName date nowIso : String)
    (s : IdealState) : RunOut IdealState :=
  analyzeCompany idealOps md5hex (fun _ => Except.error "crew not invoked") false
    companyName date (fun _ => nowIso) s

/-- The backend state after `k` further cache-served runs from state `s`,
run `j` reading the clock as `nows j`. -/
def hitIter (md5hex : String → String) (companyName date : String)
    (nows : Nat → String) (s : IdealState) : Nat → IdealState
  | 0 => s
  | k + 1 => (hitCall md5hex companyName date (nows k)
      (hitIter md5hex companyName date nows s k)).state

end HiringAnalytics

deriving instance DecidableEq for Except

namespace HiringAnalytics

/-! ## Theorems -/

/-- The first character of a string determined by its literal head. -/
theorem data_head_append (a : String) (c : Char) (t : List Char)
    (ha : a.data = c :: t) (l : List Char) : (a.data ++ l).head? = some c := by
  rw [ha]
  rfl

/-- Two task specs with different descriptions differ. -/
theorem taskSpec_ne_of_description {t u : TaskSpec}
    (h : t.description ≠ u.description) : t ≠ u := by
  intro he
  exact h (congrArg TaskSpec.description he)

/-- The financial description starts with `R` for every company name. -/
theorem descFinancial_head (n : String) : (descFinancial n).data.head? = some 'R' := by
  show ((("Research " ++ n) ++ _ : String)).data.head? = some 'R'
  rw [String.data_append, String.data_append, List.append_assoc]
  exact data_head_append "Research " 'R' "esearch ".data (by decide) _

/-- The hiring description starts with `A` for every company name. -/
theorem descJobs_head (n : String) : (descJobs n).data.head? = some 'A' := by
  show ((("Analyze " ++ n) ++ _ : String)).data.head? = some 'A'
  rw [String.data_append, String.data_append, List.append_assoc]
  exact data_head_append "Analyze " 'A' "nalyze ".data (by decide) _

/-- The growth description starts with `C` for every company name. -/
theorem descGrowth_head (n : String) : (descGrowth n).data.head? = some 'C' := by
  show ((("Check " ++ n) ++ _ : String)).data.head? = some 'C'
  rw [String.data_append, String.data_append, List.append_assoc]
  exact data_head_append "Check " 'C' "heck ".data (by decide) _

/-- Strings whose data lists have different heads differ. -/
theorem string_ne_of_head {a b : String} {x y : Char} (hx : a.data.head? = some x)
    (hy : b.data.head? = some y) (hxy : x ≠ y) : a ≠ b := by
  intro he
  rw [he, hy] at hx
  exact hxy (Option.some.inj hx).symm

/-- C7: in every run the Market task is built with a dependency context that
is exactly the three independent tasks (Financial, Hiring, Growth) in order:
three of them, never fewer, with no duplicates, so the context supplied to
the Market task is exactly those three tasks' results. -/
theorem c7_market_context_is_the_three_independent_tasks (n : String) :
    createTasks n = [financialTask n, jobsTask n, growthTask n, marketTask n] ∧
    (marketTask n).context = [financialTask n, jobsTask n, growthTask n] ∧
    (marketTask n).context.length = 3 ∧
    (marketTask n).context.Nodup := by
  refine ⟨rfl, rfl, rfl, ?_⟩
  have h01 : financialTask n ≠ jobsTask n :=
    taskSpec_ne_of_description
      (string_ne_of_head (descFinancial_head n) (descJobs_head n) (by decide))
  have h02 : financialTask n ≠ growthTask n :=
    taskSpec_ne_of_description
      (string_ne_of_head (descFinancial_head n) (descGrowth_head n) (by decide))
  have h12 : jobsTask n ≠ growthTask n :=
    taskSpec_ne_of_description
      (string_ne_of_head (descJobs_head n) (descGrowth_head n) (by decide))
  show List.Nodup [financialTask n, jobsTask n, growthTask n]
  exact List.nodup_cons.mpr ⟨by simp [h01, h02],
    List.nodup_cons.mpr ⟨by simp [h12], List.nodup_singleton _⟩⟩

/-- A prefix of the left part is an occurrence in the whole string. -/
theorem pyIn_of_left {sub a : String} (b : String) (h : sub.data <+: a.data) :
    pyIn sub (a ++ b) := by
  unfold pyIn
  rw [String.data_append]
  exact (h.trans (List.prefix_append a.data b.data)).isInfix

/-- An appended string is nonempty when its left part is. -/
theorem append_ne_empty_left {a : String} (b : String) (ha : a.data ≠ []) :
    a ++ b ≠ "" := by
  intro h
  have hd : (a ++ b).data = ([] : List Char) := by rw [h]
  rw [String.data_append] at hd
  exact ha (List.append_eq_nil.mp hd).1

/-- C8: for every company name and every backend, `analyze_company` in test
mode returns the canned report without touching the cache, the crew or the
clock (empty effect log, no retry waits, state unchanged), the canned
research blob contains `Financial Metrics:`, the canned market blob contains
`Market Position:`, and both blobs are nonempty. -/
theorem c8_test_mode_bypasses_everything {σ : Type} (ops : CacheOps σ)
    (md5hex : String → String) (crews : Nat → Except String Payload)
    (companyName date : String) (nows : Nat → String) (s : σ) :
    analyzeCompany ops md5hex crews true companyName date nows s =
      ⟨Except.ok (mockResults companyName), s, emptyLog, []⟩ ∧
    pyIn "Financial Metrics:" (mockResults companyName).research ∧
    pyIn "Market Position:" (mockResults companyName).market ∧
    (mockResults companyName).research ≠ "" ∧
    (mockResults companyName).market ≠ "" := by
  have h1 : analyzeCompany ops md5hex crews true companyName date nows s =
      ⟨Except.ok (mockResults companyName), s, emptyLog, []⟩ := rfl
  have h2 : pyIn "Financial Metrics:" mockResearchRaw := by decide
  have hpre : ("Market Position:" : String).data <+:
      ("Market Position:\nCompetitors:\n- " : String).data := by decide
  have hpre2 : ("Market Position:" : String).data <+:
      ("Market Position:\nCompetitors:\n- " ++ companyName).data := by
    rw [String.data_append]
    exact hpre.trans (List.prefix_append _ _)
  have h3 : pyIn "Market Position:" (mockMarketRaw companyName) :=
    pyIn_of_left _ hpre2
  have h4 : mockResearchRaw ≠ "" := by decide
  have h5 : mockMarketRaw companyName ≠ "" := by
    refine append_ne_empty_left _ ?_
    rw [String.data_append]
    intro h
    exact (by decide : ("Market Position:\nCompetitors:\n- " : String).data ≠ [])
      (List.append_eq_nil.mp h).1
  exact ⟨h1, h2, h3, h4, h5⟩

/-- C10: a task output that is empty, or contains `pydantic`, `json_dict` or
`token_usage` anywhere in its lowercased text, is discarded before
classification, so it contributes to neither bucket no matter what markers
it carries. -/
theorem c10_metadata_skip_discards_entirely (c : String) (hc : skipCond c)
    (l1 l2 : List String) :
    classifyOne c = none ∧
    parseResults (l1 ++ c :: l2) = parseResults (l1 ++ l2) := by
  have hnone : classifyOne c = none := by
    unfold classifyOne
    rw [if_pos hc]
  refine ⟨hnone, ?_⟩
  have hfilter : ∀ b : BucketKind,
      (l1 ++ c :: l2).filter (fun x => decide (classifyOne x = some b)) =
        (l1 ++ l2).filter (fun x => decide (classifyOne x = some b)) := by
    intro b
    rw [List.filter_append, List.filter_append, List.filter_cons]
    simp [hnone]
  unfold parseResults researchData marketData
  rw [hfilter BucketKind.market, hfilter BucketKind.research]

/-- C10 witness: a text containing a market marker and `token_USAGE` is
skipped and leaves the buckets unchanged. -/
theorem c10_metadata_skip_discards_entirely_witness :
    skipCond "token_USAGE Market Position" ∧
    (classifyOne "token_USAGE Market Position" = none ∧
      parseResults ([] ++ "token_USAGE Market Position" :: ["Financial Metrics: y"]) =
        parseResults ([] ++ ["Financial Metrics: y"])) :=
  ⟨by decide, c10_metadata_skip_discards_entirely "token_USAGE Market Position"
    (by decide) [] ["Financial Metrics: y"]⟩

/-- C6 counterexample: a text that contains the market marker
`Market Position` but also the metadata word `pydantic` is discarded by the
skip filter, not assigned to the market bucket, so containing a market
marker alone does not put a text in the market bucket. -/
theorem c6_marker_not_sufficient_counterexample :
    pyIn "Market Position" "Market Position pydantic" ∧
    classifyOne "Market Position pydantic" = none ∧
    parseResults ["Market Position pydantic"] = ⟨"", ""⟩ := by
  refine ⟨by decide, by decide, by decide⟩

/-- C6 amended: for every task-result text that survives the metadata skip
filter, a market marker sends it to the market bucket even when research
markers are also present; the concrete text `Market Share: 10%\nCompetitors:
A, B` classifies to market and lands in the market bucket only; and a
surviving text with none of the six markers is appended to neither bucket. -/
theorem c6_market_priority_over_research (t : String) (hns : ¬ skipCond t) :
    (hasMarketTerm t → classifyOne t = some BucketKind.market) ∧
    (¬ hasMarketTerm t → ¬ hasResearchTerm t → classifyOne t = none) ∧
    classifyOne "Market Share: 10%\nCompetitors: A, B" = some BucketKind.market ∧
    parseResults ["Market Share: 10%\nCompetitors: A, B"] =
      ⟨"", "Market Share: 10%\nCompetitors: A, B"⟩ := by
  refine ⟨?_, ?_, by decide, by decide⟩
  · intro hm
    unfold classifyOne
    rw [if_neg hns, if_pos hm]
  · intro hm hr
    unfold classifyOne
    rw [if_neg hns, if_neg hm, if_neg hr]

/-- C6 witness: the amended theorem applied at the concrete market text. -/
theorem c6_market_priority_over_research_witness :
    ¬ skipCond "Market Share: 10%\nCompetitors: A, B" ∧
    ((hasMarketTerm "Market Share: 10%\nCompetitors: A, B" →
        classifyOne "Market Share: 10%\nCompetitors: A, B" = some BucketKind.market) ∧
      (¬ hasMarketTerm "Market Share: 10%\nCompetitors: A, B" →
        ¬ hasResearchTerm "Market Share: 10%\nCompetitors: A, B" →
        classifyOne "Market Share: 10%\nCompetitors: A, B" = none) ∧
      classifyOne "Market Share: 10%\nCompetitors: A, B" = some BucketKind.market ∧
      parseResults ["Market Share: 10%\nCompetitors: A, B"] =
        ⟨"", "Market Share: 10%\nCompetitors: A, B"⟩) :=
  ⟨by decide, c6_market_priority_over_research "Market Share: 10%\nCompetitors: A, B"
    (by decide)⟩

/-- C1: with a cache backend whose `get` raises, `analyze_company` does not
degrade to a live run: the `except` handler's `st.warning` call raises
`NameError` (`streamlit` is never imported in the module), the outer handler
wraps it, the crew is never kicked off, and after the decorator's three
attempts the run fails.  With a backend whose `set` raises, the live run
succeeds three times, yet each attempt fails the same way and the parsed
result is lost instead of being returned with a warning. -/
theorem c1_cache_failure_aborts_instead_of_degrading :
    (analyzeCompany failingGetOps (fun _ => "") (fun _ => Except.ok ["Financial Metrics: ok"])
        false "Acme" "20260101" (fun _ => "T") ()).result =
      Except.error ("Error analyzing company: " ++ stNameErrorMsg) ∧
    (analyzeCompany failingGetOps (fun _ => "") (fun _ => Except.ok ["Financial Metrics: ok"])
        false "Acme" "20260101" (fun _ => "T") ()).log.kickoffs = 0 ∧
    (analyzeCompany failingSetOps (fun _ => "") (fun _ => Except.ok ["Financial Metrics: ok"])
        false "Acme" "20260101" (fun _ => "T") ()).result =
      Except.error ("Error analyzing company: " ++ stNameErrorMsg) ∧
    (analyzeCompany failingSetOps (fun _ => "") (fun _ => Except.ok ["Financial Metrics: ok"])
        false "Acme" "20260101" (fun _ => "T") ()).log.kickoffs = 3 :=
  ⟨rfl, rfl, rfl, rfl⟩

/-- C2: a crew failure whose message contains `credit balance is too low` is
reclassified to the distinct fatal message, but the `tenacity` decorator
retries any exception: the decorated call still performs 3 attempts with
backoff waits before surfacing the reclassified error, instead of failing
immediately on the first attempt. -/
theorem c2_credit_error_reclassified_but_still_retried :
    (analyzeCompany idealOps (fun _ => "")
        (fun _ => Except.error "Your credit balance is too low")
        false "Acme" "20260101" (fun _ => "T") emptyIdealState).result =
      Except.error creditFatalMsg ∧
    (analyzeCompany idealOps (fun _ => "")
        (fun _ => Except.error "Your credit balance is too low")
        false "Acme" "20260101" (fun _ => "T") emptyIdealState).log.kickoffs = 3 ∧
    (analyzeCompany idealOps (fun _ => "")
        (fun _ => Except.error "Your credit balance is too low")
        false "Acme" "20260101" (fun _ => "T") emptyIdealState).waits =
      [waitExp 1, waitExp 2] ∧
    waitExp 1 = 4 ∧ waitExp 2 = 4 :=
  ⟨rfl, rfl, rfl, rfl, rfl⟩

/-- One undecorated attempt against a cold ideal cache, when the crew raises
a rate-limit-flavoured error: the body sleeps 2, kicks off, sleeps 5 in the
rate-limit branch, and re-raises the original error unchanged, leaving the
backend state untouched. -/
theorem analyzeBody_rate_limited (md5hex : String → String)
    (m companyName date nowIso : String)
    (h1 : ¬ pyIn "credit balance is too low" m)
    (h2 : pyIn "rate limit" (pyLower m)) (s : IdealState)
    (hs : s.1 (generateCacheKey md5hex companyName date) = none) :
    analyzeBody idealOps md5hex (Except.error m) false companyName date nowIso s =
      (Except.error m, s, ⟨[2, 5], 1, 1, 0⟩) := by
  unfold analyzeBody
  simp only [Bool.false_eq_true, if_false, idealOps, hs, outerHandler,
    if_neg h1, if_pos h2]

/-- C3: when every attempt's crew kickoff raises a transient rate-limit
error, the decorated `analyze_company` runs exactly 3 attempts, waits the
`wait_exponential(multiplier=1, min=4, max=10)` amounts between attempts
(the first wait is 4, every wait lies in [4, 10]), and surfaces the last
attempt's underlying error to the caller. -/
theorem c3_transient_errors_retried_three_times (md5hex : String → String)
    (companyName date : String) (nows : Nat → String) (m : Nat → String)
    (h1 : ∀ i, ¬ pyIn "credit balance is too low" (m i))
    (h2 : ∀ i, pyIn "rate limit" (pyLower (m i))) :
    (analyzeCompany idealOps md5hex (fun i => Except.error (m i)) false
        companyName date nows emptyIdealState).result = Except.error (m 3) ∧
    (analyzeCompany idealOps md5hex (fun i => Except.error (m i)) false
        companyName date nows emptyIdealState).log.kickoffs = 3 ∧
    (analyzeCompany idealOps md5hex (fun i => Except.error (m i)) false
        companyName date nows emptyIdealState).waits = [waitExp 1, waitExp 2] ∧
    waitExp 1 = 4 ∧
    (∀ k, 4 ≤ waitExp k ∧ waitExp k ≤ 10) := by
  have hs : emptyIdealState.1 (generateCacheKey md5hex companyName date) = none := rfl
  have b1 := analyzeBody_rate_limited md5hex (m 1) companyName date (nows 1) (h1 1)
    (h2 1) emptyIdealState hs
  have b2 := analyzeBody_rate_limited md5hex (m 2) companyName date (nows 2) (h1 2)
    (h2 2) emptyIdealState hs
  have b3 := analyzeBody_rate_limited md5hex (m 3) companyName date (nows 3) (h1 3)
    (h2 3) emptyIdealState hs
  refine ⟨?_, ?_, ?_, by decide,
    fun k => ⟨le_max_left _ _, max_le (by norm_num) (min_le_right _ _)⟩⟩ <;>
    simp [analyzeCompany, retryGo, b1, b2, b3, logApp, emptyLog]

/-- C3 witness: retry exhaustion evaluated with the constant message
`rate limit hit`. -/
theorem c3_transient_errors_retried_three_times_witness :
    (analyzeCompany idealOps (fun _ => "") (fun _ => Except.error "rate limit hit")
        false "Acme" "20260101" (fun _ => "T") emptyIdealState).result =
      Except.error "rate limit hit" ∧
    (analyzeCompany idealOps (fun _ => "") (fun _ => Except.error "rate limit hit")
        false "Acme" "20260101" (fun _ => "T") emptyIdealState).log.kickoffs = 3 ∧
    (analyzeCompany idealOps (fun _ => "") (fun _ => Except.error "rate limit hit")
        false "Acme" "20260101" (fun _ => "T") emptyIdealState).waits =
      [waitExp 1, waitExp 2] ∧
    waitExp 1 = 4 ∧
    (∀ k, 4 ≤ waitExp k ∧ waitExp k ≤ 10) :=
  c3_transient_errors_retried_three_times (fun _ => "") "Acme" "20260101"
    (fun _ => "T") (fun _ => "rate limit hit")
    (fun _ => (by decide : ¬ pyIn "credit balance is too low" "rate limit hit"))
    (fun _ => (by decide : pyIn "rate limit" (pyLower "rate limit hit")))

/-- A live run against the cold ideal backend: parse of the crew payload is
returned, the payload is stored under the fingerprint key, and the creation
metadata (`company`, `timestamp = now`, `hits = 1`, no other field) is
written. -/
theorem liveCall_cold (md5hex : String → String) (companyName date ts0 : String)
    (p : Payload) :
    (liveCall md5hex companyName date ts0 p emptyIdealState).result =
      Except.ok (parseResults p) ∧
    (liveCall md5hex companyName date ts0 p emptyIdealState).state.1
        (generateCacheKey md5hex companyName date) = some p ∧
    (liveCall md5hex companyName date ts0 p emptyIdealState).state.2
        (generateCacheKey md5hex companyName date) =
      some (creationMeta companyName ts0) := by
  refine ⟨rfl, ?_, ?_⟩ <;>
    simp [liveCall, analyzeCompany, retryGo, analyzeBody, idealOps, emptyIdealState]

/-- A run whose crew would fail, against a backend state holding a payload
and metadata under the fingerprint key: the cached payload is parsed and
returned with no kickoff, the store and all other metadata keys are
untouched, and the key's metadata becomes the hit update of the projected
previous metadata. -/
theorem hitCall_hit (md5hex : String → String) (companyName date now : String)
    (p : Payload) (md : MetaDict) (s : IdealState)
    (h1 : s.1 (generateCacheKey md5hex companyName date) = some p)
    (h2 : s.2 (generateCacheKey md5hex companyName date) = some md) :
    (hitCall md5hex companyName date now s).result = Except.ok (parseResults p) ∧
    (hitCall md5hex companyName date now s).log.kickoffs = 0 ∧
    (hitCall md5hex companyName date now s).log.sleeps = [] ∧
    (hitCall md5hex companyName date now s).state.1 = s.1 ∧
    (hitCall md5hex companyName date now s).state.2
        (generateCacheKey md5hex companyName date) = some (hitUpd (projMeta md)) ∧
    (∀ x, x ≠ generateCacheKey md5hex companyName date →
      (hitCall md5hex companyName date now s).state.2 x = s.2 x) := by
  refine ⟨?_, ?_, ?_, ?_, ?_, ?_⟩ <;>
    simp [hitCall, analyzeCompany, retryGo, analyzeBody, idealOps,
      getCacheMetadata, h1, h2, logApp, emptyLog]
  intro x hx
  exact fun h => absurd h hx

/-- Invariant of repeated cache-served runs: the stored payload never
changes, and the key's metadata after `k` such runs is the creation record
for `k = 0` and `{timestamp: ts0, ttl: 0, hits: k + 1}` afterwards. -/
theorem hitIter_inv (md5hex : String → String) (companyName date ts0 : String)
    (nows : Nat → String) (p : Payload) (s : IdealState)
    (h1 : s.1 (generateCacheKey md5hex companyName date) = some p)
    (h2 : s.2 (generateCacheKey md5hex companyName date) =
      some (creationMeta companyName ts0)) :
    ∀ k, (hitIter md5hex companyName date nows s k).1
        (generateCacheKey md5hex companyName date) = some p ∧
      (hitIter md5hex companyName date nows s k).2
          (generateCacheKey md5hex companyName date) =
        some (if k = 0 then creationMeta companyName ts0
          else ⟨none, some ts0, some 0, some (k + 1)⟩) := by
  intro k
  induction k with
  | zero => exact ⟨h1, by simpa [hitIter] using h2⟩
  | succ k ih =>
    have hstep := hitCall_hit md5hex companyName date (nows k) p _ _ ih.1 ih.2
    refine ⟨?_, ?_⟩
    · show (hitCall md5hex companyName date (nows k)
        (hitIter md5hex companyName date nows s k)).state.1 _ = some p
      rw [hstep.2.2.2.1]
      exact ih.1
    · show (hitCall md5hex companyName date (nows k)
        (hitIter md5hex companyName date nows s k)).state.2 _ = _
      rw [hstep.2.2.2.2.1]
      cases k with
      | zero => rfl
      | succ j => rfl

/-- C5: a live run creates the cache entry with `hits = 1` and the creation
timestamp; every later run on the same key is served from the cache and
returns the parse of exactly the stored payload with no kickoff; the first
such run reads the entry while its hit count is still 1; each further run
increments `hits` by exactly 1 and the timestamp keeps its creation value
(never refreshed by reads, whatever the later clock readings `nows` are),
with `ttl` and `company` likewise unchanged between consecutive reads after
the first. -/
theorem c5_cache_roundtrip_and_hit_metadata (md5hex : String → String)
    (companyName date ts0 : String) (nows : Nat → String) (p : Payload) :
    (liveCall md5hex companyName date ts0 p emptyIdealState).result =
      Except.ok (parseResults p) ∧
    (liveCall md5hex companyName date ts0 p emptyIdealState).state.1
        (generateCacheKey md5hex companyName date) = some p ∧
    (liveCall md5hex companyName date ts0 p emptyIdealState).state.2
        (generateCacheKey md5hex companyName date) =
      some (creationMeta companyName ts0) ∧
    creationMeta companyName ts0 = ⟨some companyName, some ts0, none, some 1⟩ ∧
    (∀ k, (hitIter md5hex companyName date nows
        (liveCall md5hex companyName date ts0 p emptyIdealState).state k).1
        (generateCacheKey md5hex companyName date) = some p) ∧
    (∀ k, (hitCall md5hex companyName date (nows k)
        (hitIter md5hex companyName date nows
          (liveCall md5hex companyName date ts0 p emptyIdealState).state k)).result =
      Except.ok (parseResults p)) ∧
    (∀ k, (hitCall md5hex companyName date (nows k)
        (hitIter md5hex companyName date nows
          (liveCall md5hex companyName date ts0 p emptyIdealState).state k)).log.kickoffs
      = 0) ∧
    (∀ k, (hitIter md5hex companyName date nows
        (liveCall md5hex companyName date ts0 p emptyIdealState).state (k + 1)).2
        (generateCacheKey md5hex companyName date) =
      some ⟨none, some ts0, some 0, some (k + 2)⟩) := by
  obtain ⟨hres, hstore, hmeta⟩ := liveCall_cold md5hex companyName date ts0 p
  have hinv := hitIter_inv md5hex companyName date ts0 nows p _ hstore hmeta
  refine ⟨hres, hstore, hmeta, rfl, fun k => (hinv k).1, ?_, ?_, ?_⟩
  · intro k
    exact (hitCall_hit md5hex companyName date (nows k) p _ _ (hinv k).1 (hinv k).2).1
  · intro k
    exact (hitCall_hit md5hex companyName date (nows k) p _ _ (hinv k).1 (hinv k).2).2.1
  · intro k
    simpa using (hinv (k + 1)).2

/-- Hex digits are distinct below 16. -/
theorem digitChar_inj : ∀ a < 16, ∀ b < 16,
    Nat.digitChar a = Nat.digitChar b → a = b := by decide

/-- The `%04x` rendering is injective below 0x10000. -/
theorem hex4_inj {a b : Nat} (ha : a < 65536) (hb : b < 65536)
    (h : hex4 a = hex4 b) : a = b := by
  simp only [hex4, List.cons.injEq, and_true] at h
  obtain ⟨e1, e2, e3, e4⟩ := h
  have d1 := digitChar_inj _ (Nat.mod_lt _ (by norm_num)) _ (Nat.mod_lt _ (by norm_num)) e1
  have d2 := digitChar_inj _ (Nat.mod_lt _ (by norm_num)) _ (Nat.mod_lt _ (by norm_num)) e2
  have d3 := digitChar_inj _ (Nat.mod_lt _ (by norm_num)) _ (Nat.mod_lt _ (by norm_num)) e3
  have d4 := digitChar_inj _ (Nat.mod_lt _ (by norm_num)) _ (Nat.mod_lt _ (by norm_num)) e4
  omega

/-- `hex4` blocks of equal position cancel from the front. -/
theorem hex4_append_inj {a b : Nat} {r1 r2 : List Char}
    (h : hex4 a ++ r1 = hex4 b ++ r2) (ha : a < 65536) (hb : b < 65536) :
    a = b ∧ r1 = r2 := by
  obtain ⟨h1, h2⟩ := List.append_inj h (by rfl)
  exact ⟨hex4_inj ha hb h1, h2⟩

/-- Characters agree when their scalar values do. -/
theorem char_eq_of_toNat {a b : Char} (h : a.toNat = b.toNat) : a = b := by
  rw [← Char.ofNat_toNat a, ← Char.ofNat_toNat b, h]

/-- A character's scalar value is a valid Unicode scalar: below the
surrogate range or above it and below 0x110000. -/
theorem char_toNat_valid (c : Char) :
    c.toNat < 0xd800 ∨ (0xdfff < c.toNat ∧ c.toNat < 0x110000) := c.valid

/-- The four shapes of an escaped character, with enough side conditions to
re-read the block: a plain printable character that is neither quote nor
backslash; a two-character short escape determined by `shortUnesc`; a single
`\uXXXX` block of a non-surrogate code below 0x10000; or a surrogate pair
for an astral character. -/
theorem escChar_cases (c : Char) :
    (escChar c = [c] ∧ c ≠ '"' ∧ c ≠ '\\') ∨
    (∃ k, escChar c = ['\\', k] ∧ shortUnesc k = some c) ∨
    (escChar c = '\\' :: 'u' :: hex4 c.toNat ∧ c.toNat < 65536 ∧
      (c.toNat < 0xd800 ∨ 0xe000 ≤ c.toNat)) ∨
    (escChar c = ('\\' :: 'u' :: hex4 (0xd800 + (c.toNat - 65536) / 1024)) ++
        ('\\' :: 'u' :: hex4 (0xdc00 + (c.toNat - 65536) % 1024)) ∧
      65536 ≤ c.toNat ∧ c.toNat < 1114112) := by
  have hv := char_toNat_valid c
  by_cases h1 : c = '"'
  · subst h1
    exact Or.inr (Or.inl ⟨'"', by decide, by decide⟩)
  by_cases h2 : c = '\\'
  · subst h2
    exact Or.inr (Or.inl ⟨'\\', by decide, by decide⟩)
  by_cases h3 : c = '\n'
  · subst h3
    exact Or.inr (Or.inl ⟨'n', by decide, by decide⟩)
  by_cases h4 : c = '\r'
  · subst h4
    exact Or.inr (Or.inl ⟨'r', by decide, by decide⟩)
  by_cases h5 : c = '\t'
  · subst h5
    exact Or.inr (Or.inl ⟨'t', by decide, by decide⟩)
  by_cases h6 : c = '\x08'
  · subst h6
    exact Or.inr (Or.inl ⟨'b', by decide, by decide⟩)
  by_cases h7 : c = '\x0c'
  · subst h7
    exact Or.inr (Or.inl ⟨'f', by decide, by decide⟩)
  by_cases h8 : c.toNat < 0x20
  · have he : escChar c = '\\' :: 'u' :: hex4 c.toNat := by
      unfold escChar
      rw [if_neg h1, if_neg h2, if_neg h3, if_neg h4, if_neg h5, if_neg h6,
        if_neg h7, if_pos h8]
    exact Or.inr (Or.inr (Or.inl ⟨he, by omega, by omega⟩))
  by_cases h9 : c.toNat ≤ 0x7e
  · have he : escChar c = [c] := by
      unfold escChar
      rw [if_neg h1, if_neg h2, if_neg h3, if_neg h4, if_neg h5, if_neg h6,
        if_neg h7, if_neg h8, if_pos h9]
    exact Or.inl ⟨he, h1, h2⟩
  by_cases h10 : c.toNat < 65536
  · have he : escChar c = '\\' :: 'u' :: hex4 c.toNat := by
      unfold escChar
      rw [if_neg h1, if_neg h2, if_neg h3, if_neg h4, if_neg h5, if_neg h6,
        if_neg h7, if_neg h8, if_neg h9, if_pos h10]
    exact Or.inr (Or.inr (Or.inl ⟨he, h10, by omega⟩))
  · have he : escChar c = ('\\' :: 'u' :: hex4 (0xd800 + (c.toNat - 65536) / 1024)) ++
        ('\\' :: 'u' :: hex4 (0xdc00 + (c.toNat - 65536) % 1024)) := by
      unfold escChar
      rw [if_neg h1, if_neg h2, if_neg h3, if_neg h4, if_neg h5, if_neg h6,
        if_neg h7, if_neg h8, if_neg h9, if_neg h10]
    exact Or.inr (Or.inr (Or.inr ⟨he, by omega, by omega⟩))

/-- Every escape block is nonempty and never starts with a quote. -/
theorem escChar_head (c : Char) : ∃ x xs, escChar c = x :: xs ∧ x ≠ '"' := by
  rcases escChar_cases c with ⟨e, hq, _⟩ | ⟨k, e, _⟩ | ⟨e, _, _⟩ | ⟨e, _, _⟩
  · exact ⟨c, [], e, hq⟩
  · exact ⟨'\\', [k], e, by decide⟩
  · exact ⟨'\\', 'u' :: hex4 c.toNat, e, by decide⟩
  · refine ⟨'\\', 'u' :: hex4 (0xd800 + (c.toNat - 65536) / 1024) ++
      ('\\' :: 'u' :: hex4 (0xdc00 + (c.toNat - 65536) % 1024)), ?_, by decide⟩
    rw [e]
    rfl

/-- Block determinism of the escape code: whenever two escape blocks open
the same character stream, they are the same block of the same character. -/
theorem escChar_step {c1 c2 : Char} {r1 r2 : List Char}
    (h : escChar c1 ++ r1 = escChar c2 ++ r2) : c1 = c2 ∧ r1 = r2 := by
  rcases escChar_cases c1 with ⟨e1, hq1, hb1⟩ | ⟨k1, e1, hk1⟩ | ⟨e1, hlt1, hs1⟩ |
    ⟨e1, hge1, hv1⟩ <;>
  rcases escChar_cases c2 with ⟨e2, hq2, hb2⟩ | ⟨k2, e2, hk2⟩ | ⟨e2, hlt2, hs2⟩ |
    ⟨e2, hge2, hv2⟩ <;>
    rw [e1, e2] at h <;>
    simp only [List.cons_append, List.append_assoc, List.nil_append,
      List.cons.injEq] at h
  · exact h
  · exact absurd h.1 hb1
  · exact absurd h.1 hb1
  · exact absurd h.1 hb1
  · exact absurd h.1.symm hb2
  · obtain ⟨hk, hr⟩ := h.2
    rw [hk] at hk1
    rw [hk1] at hk2
    exact ⟨Option.some.inj hk2, hr⟩
  · obtain ⟨hk, _⟩ := h.2
    rw [hk] at hk1
    simp [shortUnesc] at hk1
  · obtain ⟨hk, _⟩ := h.2
    rw [hk] at hk1
    simp [shortUnesc] at hk1
  · exact absurd h.1.symm hb2
  · obtain ⟨hk, _⟩ := h.2
    rw [← hk] at hk2
    simp [shortUnesc] at hk2
  · obtain ⟨ha, hr⟩ := hex4_append_inj h.2.2 hlt1 hlt2
    exact ⟨char_eq_of_toNat ha, hr⟩
  · obtain ⟨ha, _⟩ := hex4_append_inj h.2.2 hlt1 (by omega)
    omega
  · exact absurd h.1.symm hb2
  · obtain ⟨hk, _⟩ := h.2
    rw [← hk] at hk2
    simp [shortUnesc] at hk2
  · obtain ⟨ha, _⟩ := hex4_append_inj h.2.2 (by omega) hlt2
    omega
  · obtain ⟨ha, hr⟩ := hex4_append_inj h.2.2 (by omega) (by omega)
    simp only [List.cons.injEq] at hr
    obtain ⟨hb, hr2⟩ := hex4_append_inj hr.2.2 (by omega) (by omega)
    refine ⟨char_eq_of_toNat (by omega), hr2⟩

/-- Quote-terminated escaped fields cancel: the closing quote cannot occur
inside an escape block, so equal streams recover equal fields. -/
theorem escape_quote_cancel : ∀ (a b r1 r2 : List Char),
    escape a ++ '"' :: r1 = escape b ++ '"' :: r2 → a = b ∧ r1 = r2
  | [], [], r1, r2, h => ⟨rfl, by
    simp only [escape, List.nil_append, List.cons.injEq, true_and] at h
    exact h⟩
  | [], c :: t, r1, r2, h => by
    obtain ⟨x, xs, e, hx⟩ := escChar_head c
    simp only [escape, e, List.nil_append, List.cons_append, List.append_assoc,
      List.cons.injEq] at h
    exact absurd h.1 (fun hq => hx hq.symm)
  | c :: t, [], r1, r2, h => by
    obtain ⟨x, xs, e, hx⟩ := escChar_head c
    simp only [escape, e, List.nil_append, List.cons_append, List.append_assoc,
      List.cons.injEq] at h
    exact absurd h.1 hx
  | c :: t, d :: u, r1, r2, h => by
    rw [show escape (c :: t) = escChar c ++ escape t from rfl,
      show escape (d :: u) = escChar d ++ escape u from rfl,
      List.append_assoc, List.append_assoc] at h
    obtain ⟨hc, hr⟩ := escChar_step h
    obtain ⟨ht, hrr⟩ := escape_quote_cancel t u r1 r2 hr
    exact ⟨by rw [hc, ht], hrr⟩

/-- Escaped fields of sources of equal length cancel. -/
theorem escape_length_cancel : ∀ (a b r1 r2 : List Char),
    escape a ++ r1 = escape b ++ r2 → a.length = b.length → a = b ∧ r1 = r2
  | [], [], r1, r2, h, _ => ⟨rfl, by simpa only [escape, List.nil_append] using h⟩
  | [], _ :: _, _, _, _, hl => by simp at hl
  | _ :: _, [], _, _, _, hl => by simp at hl
  | c :: t, d :: u, r1, r2, h, hl => by
    rw [show escape (c :: t) = escChar c ++ escape t from rfl,
      show escape (d :: u) = escChar d ++ escape u from rfl,
      List.append_assoc, List.append_assoc] at h
    obtain ⟨hc, hr⟩ := escChar_step h
    obtain ⟨ht, hrr⟩ := escape_length_cancel t u r1 r2 hr (by simpa using hl)
    exact ⟨by rw [hc, ht], hrr⟩

/-- The financial description's characters, decomposed around the name. -/
theorem descFinancial_data (n : String) :
    (descFinancial n).data = "Research ".data ++ n.data ++
      "'s financial metrics:\n            - Revenue\n            - Profit margins\n            - Funding/cash position\n            Format: Financial Metrics: revenue, margins, funding".data := by
  simp [descFinancial, String.data_append]

/-- The cache serialisation determines the company name: two names with the
same date and the same serialisation are equal. -/
theorem cacheString_inj_name {n1 n2 : String} (d : String)
    (h : cacheString n1 d = cacheString n2 d) : n1 = n2 := by
  have hd : serialChars n1 d = serialChars n2 d := congrArg String.data h
  unfold serialChars at hd
  simp only [List.append_assoc] at hd
  have h1 := List.append_cancel_left hd
  obtain ⟨hlow, h2⟩ := escape_quote_cancel _ _ _ _ h1
  have h3 := List.append_cancel_left h2
  have h4 := List.append_cancel_left h3
  have h5 : ∃ r1 r2, escape (descFinancial n1).data ++ r1 =
      escape (descFinancial n2).data ++ r2 := by
    injection h4 with _ h5tail
    exact ⟨_, _, List.append_cancel_left h5tail⟩
  obtain ⟨r1, r2, h6⟩ := h5
  have hlen : n1.data.length = n2.data.length := by
    have := congrArg List.length hlow
    simpa [pyLower] using this
  have hdlen : (descFinancial n1).data.length = (descFinancial n2).data.length := by
    rw [descFinancial_data, descFinancial_data]
    simp only [List.length_append, hlen]
  obtain ⟨hdesc, _⟩ := escape_length_cancel _ _ _ _ h6 hdlen
  rw [descFinancial_data, descFinancial_data] at hdesc
  simp only [List.append_assoc] at hdesc
  have h7 := List.append_cancel_left hdesc
  have h8 := List.append_cancel_right h7
  exact String.ext h8

/-- C4: the cache fingerprint is a pure function of the company name, the
task descriptions (themselves functions of the name), the fixed model/
process configuration and the calendar date — so two computations with the
same name on the same day give the identical key — and, barring a collision
of the digest function, two different company names give different keys,
because the canonical serialisation determines the name. -/
theorem c4_fingerprint_deterministic_and_name_injective
    (md5hex : String → String) (hinj : Function.Injective md5hex)
    (n1 n2 d : String) (hne : n1 ≠ n2) :
    generateCacheKey md5hex n1 d ≠ generateCacheKey md5hex n2 d ∧
    (∀ m e, m = n1 → e = d →
      generateCacheKey md5hex m e = generateCacheKey md5hex n1 d) := by
  refine ⟨?_, fun m e hm he => by rw [hm, he]⟩
  intro hkey
  apply hne
  apply cacheString_inj_name d
  apply hinj
  have hd := congrArg String.data hkey
  unfold generateCacheKey at hd
  rw [String.data_append, String.data_append] at hd
  exact String.ext (List.append_cancel_left hd)

/-- C4 witness: with the identity digest, the keys of two concrete distinct
names on the same date differ. -/
theorem c4_fingerprint_deterministic_and_name_injective_witness :
    Function.Injective (fun s : String => s) ∧ ("Acme" : String) ≠ "Bcme" ∧
    generateCacheKey (fun s => s) "Acme" "20260101" ≠
      generateCacheKey (fun s => s) "Bcme" "20260101" :=
  ⟨fun _ _ h => h, by decide,
    (c4_fingerprint_deterministic_and_name_injective (fun s => s) (fun _ _ h => h)
      "Acme" "Bcme" "20260101" (by decide)).1⟩

/-- The one-step equation of `splitNL` on a cons cell. -/
theorem splitNL_cons (c : Char) (t : List Char) :
    splitNL (c :: t) = if c = '\n' then [] :: splitNL t else
      match splitNL t with
      | [] => [[c]]
      | h :: r => (c :: h) :: r := rfl

/-- Splitting never returns the empty list of lines. -/
theorem splitNL_ne_nil : ∀ t : List Char, splitNL t ≠ []
  | [] => by simp [splitNL]
  | c :: t => by
    unfold splitNL
    split
    · simp
    · split <;> simp

/-- The head line of a split is a prefix of the text, the rest are
contiguous pieces of it. -/
theorem splitNL_struct : ∀ t : List Char,
    ∃ h0 r, splitNL t = h0 :: r ∧ h0 <+: t ∧ ∀ l ∈ r, l <:+: t
  | [] => ⟨[], [], rfl, List.nil_prefix, by simp⟩
  | c :: t => by
    obtain ⟨h0, r, hs, hp, hr⟩ := splitNL_struct t
    by_cases hc : c = '\n'
    · refine ⟨[], h0 :: r, ?_, List.nil_prefix, ?_⟩
      · unfold splitNL
        rw [if_pos hc, hs]
      · intro l hl
        rcases List.mem_cons.mp hl with rfl | hl'
        · exact hp.isInfix.trans (List.infix_cons_iff.mpr (Or.inr (List.infix_refl t)))
        · exact (hr l hl').trans (List.infix_cons_iff.mpr (Or.inr (List.infix_refl t)))
    · refine ⟨c :: h0, r, ?_, ?_, ?_⟩
      · unfold splitNL
        rw [if_neg hc, hs]
      · obtain ⟨u, hu⟩ := hp
        exact ⟨u, by simp [hu]⟩
      · intro l hl
        exact (hr l hl).trans (List.infix_cons_iff.mpr (Or.inr (List.infix_refl t)))

/-- Every line of a split is a contiguous piece of the text. -/
theorem infix_of_mem_splitNL {t l : List Char} (h : l ∈ splitNL t) : l <:+: t := by
  obtain ⟨h0, r, hs, hp, hr⟩ := splitNL_struct t
  rw [hs] at h
  rcases List.mem_cons.mp h with rfl | h'
  · exact hp.isInfix
  · exact hr l h'

/-- Lines of a split contain no newline. -/
theorem no_newline_of_mem_splitNL : ∀ (t : List Char) (l : List Char),
    l ∈ splitNL t → '\n' ∉ l
  | [], l, h => by
    simp [splitNL] at h
    subst h
    simp
  | c :: t, l, h => by
    unfold splitNL at h
    by_cases hc : c = '\n'
    · rw [if_pos hc] at h
      rcases List.mem_cons.mp h with rfl | h'
      · simp
      · exact no_newline_of_mem_splitNL t l h'
    · rw [if_neg hc] at h
      cases hs : splitNL t with
      | nil => exact absurd hs (splitNL_ne_nil t)
      | cons h0 r =>
        rw [hs] at h
        rcases List.mem_cons.mp h with rfl | h'
        · intro hmem
          rcases List.mem_cons.mp hmem with he | hm
          · exact hc he.symm
          · refine no_newline_of_mem_splitNL t h0 ?_ hm
            rw [hs]
            exact List.mem_cons_self h0 r
        · refine no_newline_of_mem_splitNL t l ?_
          rw [hs]
          exact List.mem_cons_of_mem h0 h'

/-- A newline-free text splits into itself alone. -/
theorem splitNL_of_no_newline : ∀ {l : List Char}, '\n' ∉ l → splitNL l = [l]
  | [], _ => rfl
  | c :: t, h => by
    have hc : c ≠ '\n' := fun he => h (he ▸ List.mem_cons_self c t)
    have ht : '\n' ∉ t := fun hm => h (List.mem_cons_of_mem c hm)
    rw [splitNL_cons, if_neg hc, splitNL_of_no_newline ht]

/-- Splitting at an explicit newline peels off the newline-free head line. -/
theorem splitNL_append_newline : ∀ {l : List Char}, '\n' ∉ l →
    ∀ rest : List Char, splitNL (l ++ '\n' :: rest) = l :: splitNL rest
  | [], _, rest => by
    show splitNL ('\n' :: rest) = [] :: splitNL rest
    rw [splitNL_cons, if_pos rfl]
  | c :: t, h, rest => by
    have hc : c ≠ '\n' := fun he => h (he ▸ List.mem_cons_self c t)
    have ht : '\n' ∉ t := fun hm => h (List.mem_cons_of_mem c hm)
    show splitNL (c :: (t ++ '\n' :: rest)) = (c :: t) :: splitNL rest
    rw [splitNL_cons, if_neg hc, splitNL_append_newline ht rest]

/-- Joining newline-free lines and splitting again recovers the lines. -/
theorem splitNL_join : ∀ ls : List (List Char), ls ≠ [] →
    (∀ l ∈ ls, '\n' ∉ l) → splitNL (joinNL ls) = ls
  | [], h, _ => absurd rfl h
  | [l], _, hn => by
    show splitNL l = [l]
    exact splitNL_of_no_newline (hn l (List.mem_cons_self l []))
  | l :: l2 :: r, _, hn => by
    show splitNL (l ++ '\n' :: joinNL (l2 :: r)) = l :: (l2 :: r)
    rw [splitNL_append_newline (hn l (List.mem_cons_self l _)) (joinNL (l2 :: r)),
      splitNL_join (l2 :: r) (by simp) (fun x hx => hn x (List.mem_cons_of_mem l hx))]

/-- A prefix of `u ++ x :: v` avoiding `x` is a prefix of `u`. -/
theorem prefix_drop : ∀ {p u v : List Char} {x : Char},
    p <+: u ++ x :: v → x ∉ p → p <+: u
  | [], _, _, _, _, _ => List.nil_prefix
  | a :: p, [], v, x, h, hx => by
    obtain ⟨t, ht⟩ := h
    simp only [List.cons_append, List.nil_append, List.cons.injEq] at ht
    exact absurd (ht.1 ▸ List.mem_cons_self a p) hx
  | a :: p, b :: u, v, x, h, hx => by
    obtain ⟨t, ht⟩ := h
    simp only [List.cons_append, List.cons.injEq] at ht
    have hp : p <+: u ++ x :: v := ⟨t, ht.2⟩
    obtain ⟨t', ht'⟩ := prefix_drop hp (fun hm => hx (List.mem_cons_of_mem a hm))
    exact ⟨t', by simp [ht.1, ht']⟩

/-- A contiguous piece of `u ++ x :: v` avoiding `x` lies in `u` or in `v`. -/
theorem infix_split : ∀ {u : List Char} {p v : List Char} {x : Char},
    p <:+: u ++ x :: v → x ∉ p → p <:+: u ∨ p <:+: v
  | [], p, v, x, h, hx => by
    rw [List.nil_append] at h
    rcases List.infix_cons_iff.mp h with hpre | hinf
    · cases p with
      | nil => exact Or.inl (List.nil_infix)
      | cons a p' =>
        obtain ⟨t, ht⟩ := hpre
        simp only [List.cons_append, List.cons.injEq] at ht
        exact absurd (ht.1 ▸ List.mem_cons_self a p') hx
    · exact Or.inr hinf
  | b :: u, p, v, x, h, hx => by
    rw [List.cons_append] at h
    rcases List.infix_cons_iff.mp h with hpre | hinf
    · cases p with
      | nil => exact Or.inl (List.nil_infix)
      | cons a p' =>
        obtain ⟨t, ht⟩ := hpre
        simp only [List.cons_append, List.cons.injEq] at ht
        have hp' : p' <+: u ++ x :: v := ⟨t, ht.2⟩
        have := prefix_drop hp' (fun hm => hx (List.mem_cons_of_mem a hm))
        obtain ⟨t', ht'⟩ := this
        exact Or.inl (⟨[], t', by simp [ht.1, ht']⟩ : a :: p' <:+: b :: u)
    · rcases infix_split hinf hx with hu | hv
      · exact Or.inl (hu.trans (List.infix_cons_iff.mpr (Or.inr (List.infix_refl u))))
      · exact Or.inr hv

/-- A nonempty newline-free contiguous piece of a newline join lies inside
one of the joined lines. -/
theorem infix_joinNL : ∀ (ls : List (List Char)) (p : List Char),
    p <:+: joinNL ls → '\n' ∉ p → p ≠ [] → ∃ l ∈ ls, p <:+: l
  | [], p, h, _, hne => by
    rw [show joinNL [] = [] from rfl] at h
    exact absurd (List.eq_nil_of_infix_nil h) hne
  | [l], p, h, _, _ => ⟨l, List.mem_cons_self l [], by simpa [joinNL] using h⟩
  | l :: l2 :: r, p, h, hnl, hne => by
    rw [show joinNL (l :: l2 :: r) = l ++ '\n' :: joinNL (l2 :: r) from rfl] at h
    rcases infix_split h hnl with hl | hr
    · exact ⟨l, List.mem_cons_self l _, hl⟩
    · obtain ⟨m, hm, hpm⟩ := infix_joinNL (l2 :: r) p hr hnl hne
      exact ⟨m, List.mem_cons_of_mem l hm, hpm⟩

/-- Dropping a satisfied prefix twice is the same as once. -/
theorem dropWhile_idem (p : Char → Bool) : ∀ l : List Char,
    (l.dropWhile p).dropWhile p = l.dropWhile p
  | [] => rfl
  | c :: t => by
    by_cases hp : p c
    · simp [List.dropWhile_cons, hp, dropWhile_idem p t]
    · simp [List.dropWhile_cons, hp]

/-- `dropWhile` is the identity on any prefix of a list it fixes. -/
theorem dropWhile_eq_self_mono {p : Char → Bool} : ∀ {l r : List Char},
    l.dropWhile p = l → r <+: l → r.dropWhile p = r
  | _, [], _, _ => rfl
  | [], c :: t, _, hr => absurd (List.prefix_nil.mp hr) (by simp)
  | a :: l, c :: t, hl, hr => by
    obtain ⟨u, hu⟩ := hr
    simp only [List.cons_append, List.cons.injEq] at hu
    have ha : ¬ p a := by
      intro hpa
      rw [List.dropWhile_cons, if_pos hpa] at hl
      have := congrArg List.length hl
      have hle := (List.dropWhile_sublist (l := l) (p := p)).length_le
      simp at this
      omega
    rw [List.dropWhile_cons, if_neg (hu.1 ▸ ha)]

/-- The stripped line sits inside the original line. -/
theorem pyStrip_within (l : List Char) : pyStrip l <:+: l := by
  unfold pyStrip
  have h1 : l.dropWhile pySpace <:+ l := List.dropWhile_suffix pySpace
  have h2 : ((l.dropWhile pySpace).reverse.dropWhile pySpace).reverse <+:
      l.dropWhile pySpace := by
    have h := List.dropWhile_suffix (l := (l.dropWhile pySpace).reverse) pySpace
    have h3 : (((l.dropWhile pySpace).reverse.dropWhile pySpace).reverse).reverse <:+
        (l.dropWhile pySpace).reverse := by simpa using h
    simpa using List.reverse_suffix.mp h3
  exact h2.isInfix.trans h1.isInfix

/-- Stripping twice is the same as once. -/
theorem pyStrip_idem (l : List Char) : pyStrip (pyStrip l) = pyStrip l := by
  have hAfix : (l.dropWhile pySpace).dropWhile pySpace = l.dropWhile pySpace :=
    dropWhile_idem pySpace l
  have hpre : pyStrip l <+: l.dropWhile pySpace := by
    unfold pyStrip
    have h := List.dropWhile_suffix (l := (l.dropWhile pySpace).reverse) pySpace
    have h3 : (((l.dropWhile pySpace).reverse.dropWhile pySpace).reverse).reverse <:+
        (l.dropWhile pySpace).reverse := by simpa using h
    simpa using List.reverse_suffix.mp h3
  have hfix1 : (pyStrip l).dropWhile pySpace = pyStrip l :=
    dropWhile_eq_self_mono hAfix hpre
  have hfix2 : (pyStrip l).reverse.dropWhile pySpace = (pyStrip l).reverse := by
    show ((((l.dropWhile pySpace).reverse.dropWhile pySpace).reverse).reverse).dropWhile
      pySpace = (pyStrip l).reverse
    rw [List.reverse_reverse, dropWhile_idem pySpace]
    show (l.dropWhile pySpace).reverse.dropWhile pySpace = _
    rw [show (pyStrip l).reverse =
      ((l.dropWhile pySpace).reverse.dropWhile pySpace).reverse.reverse from rfl,
      List.reverse_reverse]
  show (((pyStrip l).dropWhile pySpace).reverse.dropWhile pySpace).reverse = pyStrip l
  rw [hfix1, hfix2, List.reverse_reverse]

/-- Stripping preserves newline-freeness. -/
theorem pyStrip_no_newline {l : List Char} (h : '\n' ∉ l) : '\n' ∉ pyStrip l :=
  fun hm => h ((pyStrip_within l).subset hm)

/-- A surviving cleaned line is already stripped, kept, newline-free, and a
contiguous piece of its source text. -/
theorem mem_cleanLinesOf {td l : List Char} (h : l ∈ cleanLinesOf td) :
    pyStrip l = l ∧ keepLine l = true ∧ '\n' ∉ l ∧ l <:+: td := by
  unfold cleanLinesOf at h
  obtain ⟨hmem, hkeep⟩ := List.mem_filter.mp h
  obtain ⟨x, hx, rfl⟩ := List.mem_map.mp hmem
  exact ⟨pyStrip_idem x, hkeep,
    pyStrip_no_newline (no_newline_of_mem_splitNL td x hx),
    (pyStrip_within x).trans (infix_of_mem_splitNL hx)⟩

/-- Lowercasing commutes with the newline join. -/
theorem joinNL_map_lower : ∀ ls : List (List Char),
    (joinNL ls).map Char.toLower = joinNL (ls.map (List.map Char.toLower))
  | [] => rfl
  | [l] => rfl
  | l :: l2 :: r => by
    show (l ++ '\n' :: joinNL (l2 :: r)).map Char.toLower =
      l.map Char.toLower ++ '\n' :: joinNL ((l2 :: r).map (List.map Char.toLower))
    rw [List.map_append, List.map_cons, joinNL_map_lower (l2 :: r),
      show Char.toLower '\n' = '\n' from by decide]

/-- The classification returns the market bucket exactly for non-skipped
texts carrying a market marker. -/
theorem classifyOne_eq_market {c : String} :
    classifyOne c = some BucketKind.market ↔ ¬ skipCond c ∧ hasMarketTerm c := by
  unfold classifyOne
  split_ifs <;> simp_all

/-- The classification returns the research bucket exactly for non-skipped
texts carrying a research marker but no market marker. -/
theorem classifyOne_eq_research {c : String} :
    classifyOne c = some BucketKind.research ↔
      ¬ skipCond c ∧ ¬ hasMarketTerm c ∧ hasResearchTerm c := by
  unfold classifyOne
  split_ifs <;> simp_all

/-- Any newline-free nonempty occurrence in a cleaned blob occurs in one of
the blob's source texts. -/
theorem blob_source {texts : List String} {w : String}
    (hnl : '\n' ∉ w.data) (hne : w.data ≠ [])
    (hw : pyIn w (cleanText texts)) : ∃ t ∈ texts, pyIn w t := by
  have h : w.data <:+: joinNL (texts.flatMap (fun t => cleanLinesOf t.data)) := hw
  obtain ⟨l, hl, hwl⟩ := infix_joinNL _ w.data h hnl hne
  obtain ⟨t, ht, hlt⟩ := List.mem_flatMap.mp hl
  exact ⟨t, ht, hwl.trans (mem_cleanLinesOf hlt).2.2.2⟩

/-- Any newline-free nonempty occurrence in the lowercased cleaned blob
occurs in the lowercase of one of the blob's source texts. -/
theorem blob_source_lower {texts : List String} {w : String}
    (hnl : '\n' ∉ w.data) (hne : w.data ≠ [])
    (hw : pyIn w (pyLower (cleanText texts))) : ∃ t ∈ texts, pyIn w (pyLower t) := by
  have h0 : w.data <:+:
      (joinNL (texts.flatMap (fun t => cleanLinesOf t.data))).map Char.toLower := hw
  rw [joinNL_map_lower] at h0
  obtain ⟨ml, hml, hwml⟩ := infix_joinNL _ w.data h0 hnl hne
  obtain ⟨l, hl, rfl⟩ := List.mem_map.mp hml
  obtain ⟨t, ht, hlt⟩ := List.mem_flatMap.mp hl
  exact ⟨t, ht, hwml.trans ((mem_cleanLinesOf hlt).2.2.2.map Char.toLower)⟩

/-- Cleaning an already-cleaned blob changes nothing. -/
theorem cleanText_blob (texts : List String)
    (hne : texts.flatMap (fun t => cleanLinesOf t.data) ≠ []) :
    cleanText [cleanText texts] = cleanText texts := by
  have hprops : ∀ l ∈ texts.flatMap (fun t => cleanLinesOf t.data),
      pyStrip l = l ∧ keepLine l = true ∧ '\n' ∉ l := by
    intro l hl
    obtain ⟨t, ht, hlt⟩ := List.mem_flatMap.mp hl
    obtain ⟨a, b, c, _⟩ := mem_cleanLinesOf hlt
    exact ⟨a, b, c⟩
  have hsplit : splitNL (joinNL (texts.flatMap (fun t => cleanLinesOf t.data))) =
      texts.flatMap (fun t => cleanLinesOf t.data) :=
    splitNL_join _ hne (fun l hl => (hprops l hl).2.2)
  have hclean : cleanLinesOf (cleanText texts).data =
      texts.flatMap (fun t => cleanLinesOf t.data) := by
    show ((splitNL (cleanText texts).data).map pyStrip).filter keepLine =
      texts.flatMap (fun t => cleanLinesOf t.data)
    rw [show (cleanText texts).data =
      joinNL (texts.flatMap (fun t => cleanLinesOf t.data)) from rfl, hsplit]
    rw [List.map_congr_left (fun l hl => (hprops l hl).1), List.map_id']
    exact List.filter_eq_self.mpr (fun l hl => (hprops l hl).2.1)
  show String.mk (joinNL ([cleanText texts].flatMap (fun t => cleanLinesOf t.data))) =
    cleanText texts
  rw [show [cleanText texts].flatMap (fun t => cleanLinesOf t.data) =
    cleanLinesOf (cleanText texts).data by simp, hclean]
  rfl

/-- C9 counterexample: a research-classified text whose marker line is
dropped by `clean_text` yields a research blob with no marker; renormalising
that blob discards it, so the buckets change instead of being stable. -/
theorem c9_renormalization_counterexample :
    (parseResults ["Task Financial Metrics: x\nrevenue is high"]).research =
      "revenue is high" ∧
    classifyOne "revenue is high" = none ∧
    parseResults [(parseResults ["Task Financial Metrics: x\nrevenue is high"]).research] =
      ⟨"", ""⟩ := by
  refine ⟨by decide, by decide, by decide⟩

/-- C9 amended: renormalising a bucket blob as a single task result is the
identity provided the blob still carries a marker of its own kind: the
research blob then classifies back into research and the market blob into
market, with both bucket texts unchanged. -/
theorem c9_renormalizing_buckets_stable (contents : List String) :
    (hasResearchTerm (parseResults contents).research →
      parseResults [(parseResults contents).research] =
        ⟨(parseResults contents).research, ""⟩) ∧
    (hasMarketTerm (parseResults contents).market →
      parseResults [(parseResults contents).market] =
        ⟨"", (parseResults contents).market⟩) := by
  constructor
  · intro hr
    have hRne : (parseResults contents).research ≠ "" := by
      intro h0
      rw [h0] at hr
      exact absurd hr (by decide)
    have hLne : (researchData contents).flatMap (fun t => cleanLinesOf t.data) ≠ [] := by
      intro h0
      apply hRne
      show cleanText (researchData contents) = ""
      unfold cleanText
      rw [h0]
      rfl
    have hmem : ∀ t ∈ researchData contents,
        ¬ skipCond t ∧ ¬ hasMarketTerm t ∧ hasResearchTerm t := by
      intro t ht
      have h2 := (List.mem_filter.mp ht).2
      exact classifyOne_eq_research.mp (by simpa using h2)
    have hnoskip : ¬ skipCond (parseResults contents).research := by
      intro hsk
      rcases hsk with h0 | ⟨w, hwmem, hwin⟩
      · exact hRne h0
      · have hw3 : w = "pydantic" ∨ w = "json_dict" ∨ w = "token_usage" := by
          simpa [skipWords] using hwmem
        obtain ⟨t, ht, hwt⟩ : ∃ t ∈ researchData contents, pyIn w (pyLower t) := by
          rcases hw3 with rfl | rfl | rfl <;>
            exact blob_source_lower (by decide) (by decide) hwin
        exact (hmem t ht).1 (Or.inr ⟨w, hwmem, hwt⟩)
    have hnomkt : ¬ hasMarketTerm (parseResults contents).research := by
      rintro ⟨w, hwmem, hwin⟩
      have hw3 : w = "Market Position" ∨ w = "Competitors" ∨ w = "Market Share" := by
        simpa [marketTerms] using hwmem
      obtain ⟨t, ht, hwt⟩ : ∃ t ∈ researchData contents, pyIn w t := by
        rcases hw3 with rfl | rfl | rfl <;>
          exact blob_source (by decide) (by decide) hwin
      exact (hmem t ht).2.1 ⟨w, hwmem, hwt⟩
    have hcls : classifyOne (parseResults contents).research =
        some BucketKind.research :=
      classifyOne_eq_research.mpr ⟨hnoskip, hnomkt, hr⟩
    have hrd : researchData [(parseResults contents).research] =
        [(parseResults contents).research] := by
      unfold researchData
      simp [List.filter_cons, hcls]
    have hmd : marketData [(parseResults contents).research] = [] := by
      unfold marketData
      simp [List.filter_cons, hcls]
    have heq : parseResults [(parseResults contents).research] =
        ⟨cleanText (researchData [(parseResults contents).research]),
          cleanText (marketData [(parseResults contents).research])⟩ := rfl
    rw [heq, hrd, hmd]
    refine congrArg₂ Parsed.mk ?_ rfl
    show cleanText [cleanText (researchData contents)] = cleanText (researchData contents)
    exact cleanText_blob _ hLne
  · intro hm
    have hMne : (parseResults contents).market ≠ "" := by
      intro h0
      rw [h0] at hm
      exact absurd hm (by decide)
    have hLne : (marketData contents).flatMap (fun t => cleanLinesOf t.data) ≠ [] := by
      intro h0
      apply hMne
      show cleanText (marketData contents) = ""
      unfold cleanText
      rw [h0]
      rfl
    have hmem : ∀ t ∈ marketData contents, ¬ skipCond t ∧ hasMarketTerm t := by
      intro t ht
      have h2 := (List.mem_filter.mp ht).2
      exact classifyOne_eq_market.mp (by simpa using h2)
    have hnoskip : ¬ skipCond (parseResults contents).market := by
      intro hsk
      rcases hsk with h0 | ⟨w, hwmem, hwin⟩
      · exact hMne h0
      · have hw3 : w = "pydantic" ∨ w = "json_dict" ∨ w = "token_usage" := by
          simpa [skipWords] using hwmem
        obtain ⟨t, ht, hwt⟩ : ∃ t ∈ marketData contents, pyIn w (pyLower t) := by
          rcases hw3 with rfl | rfl | rfl <;>
            exact blob_source_lower (by decide) (by decide) hwin
        exact (hmem t ht).1 (Or.inr ⟨w, hwmem, hwt⟩)
    have hcls : classifyOne (parseResults contents).market = some BucketKind.market :=
      classifyOne_eq_market.mpr ⟨hnoskip, hm⟩
    have hrd : researchData [(parseResults contents).market] = [] := by
      unfold researchData
      simp [List.filter_cons, hcls]
    have hmd : marketData [(parseResults contents).market] =
        [(parseResults contents).market] := by
      unfold marketData
      simp [List.filter_cons, hcls]
    have heq : parseResults [(parseResults contents).market] =
        ⟨cleanText (researchData [(parseResults contents).market]),
          cleanText (marketData [(parseResults contents).market])⟩ := rfl
    rw [heq, hrd, hmd]
    refine congrArg₂ Parsed.mk rfl ?_
    show cleanText [cleanText (marketData contents)] = cleanText (marketData contents)
    exact cleanText_blob _ hLne

/-- C9 witness: the amended stability applied to a one-text input whose
research blob keeps its marker. -/
theorem c9_renormalizing_buckets_stable_witness :
    hasResearchTerm (parseResults ["Financial Metrics: good"]).research ∧
    parseResults [(parseResults ["Financial Metrics: good"]).research] =
      ⟨(parseResults ["Financial Metrics: good"]).research, ""⟩ :=
  ⟨by decide, (c9_renormalizing_buckets_stable ["Financial Metrics: good"]).1 (by decide)⟩

end HiringAnalytics
